import Mathlib

/-!
# Verification of the antigravity-jules-integration session client

Shallow embedding of the session-cache reconciliation logic, the remote
state mapping, the session-listing pipeline, the create-session error
paths, the JSON-RPC bridge dispatch, the context-file loader, and the
(documented) retry envelope of the repository, together with proofs of
the specification's testable properties.

The repository ships several revisions of its API client:
* `src/julesClient.ts` (the named file) — `_updateCache` sorts the fetched
  array in place, clears the cache and re-inserts every fetched session
  ("replace" variant below);
* the revision embedded in `src/unnamed/part_004` — `_updateCache` keeps
  the cache when the snapshot is empty and preserves local-only sessions
  ("merge" variant below), and its `parseApiSession` maps states by an
  upper-cased switch;
* the revision in `src/unnamed/part_005` — `parseApiSession` maps states
  by lower-cased substring tests;
* `JulesClientNode` in `src/unnamed/part_002` — the standalone bridge
  client, whose error message interpolates the raw response body.

Both variants of every diverging function are embedded and compared.

Machine conventions: ISO-8601 timestamp strings are represented by the
integer value `new Date(s).getTime()` yields (epoch milliseconds), since
the code only ever compares those parsed values; JavaScript `Map`s are
represented as association lists in insertion order, `Map.set` keeping
the position of an existing key.
-/

namespace AntigravityJules

/-! ## Data model (`SessionStatus` of julesClient.ts) -/

/-- Local lifecycle status vocabulary:
`'pending' | 'running' | 'completed' | 'failed' | 'cancelled'`. -/
inductive SessionState where
  | pending
  | running
  | completed
  | failed
  | cancelled
deriving DecidableEq, Repr

/-- `SessionStatus` record of `julesClient.ts` (the `name` display field of
the latest revision is not read by any cache logic and is omitted;
`createdAt`/`updatedAt` are the parsed epoch values of the ISO strings). -/
structure SessionStatus where
  id : String
  task : String
  status : SessionState
  createdAt : Int
  updatedAt : Int
  remoteBranch : Option String := none
  errorMsg : Option String := none
deriving DecidableEq, Repr

/-! ## Stable descending sort by creation time

`allSessions.sort((a, b) => new Date(b.createdAt).getTime() -
new Date(a.createdAt).getTime())` — a stable sort (ES2019) placing larger
`createdAt` first and keeping the original order of ties. Embedded as a
stable insertion sort. -/

/-- Insert `x` before the first element whose key is `≤ x`'s key
(so `x` stays before every tied element that followed it). -/
def insertDesc (x : SessionStatus) : List SessionStatus → List SessionStatus
  | [] => [x]
  | y :: ys => if y.createdAt ≤ x.createdAt then x :: y :: ys else y :: insertDesc x ys

/-- Stable sort, newest (largest `createdAt`) first. -/
def sortDesc : List SessionStatus → List SessionStatus
  | [] => []
  | x :: xs => insertDesc x (sortDesc xs)

/-- The list is ordered by creation time, newest first. -/
def SortedDesc (l : List SessionStatus) : Prop :=
  l.Pairwise (fun a b => b.createdAt ≤ a.createdAt)

/-! ## The session cache (`Map<string, SessionStatus>`)

Represented as an association list of sessions in insertion order; the key
of an entry is its `id` field (the code only ever calls
`set(session.id, session)`). -/

/-- `Map.set(s.id, s)`: overwrite in place if the id is present, else
append. -/
def mapSet : List SessionStatus → SessionStatus → List SessionStatus
  | [], s => [s]
  | t :: ts, s => if t.id = s.id then s :: ts else t :: mapSet ts s

/-- `cache.clear()` followed by `for (s of l) cache.set(s.id, s)`. -/
def buildMap (l : List SessionStatus) : List SessionStatus :=
  l.foldl mapSet []

/-- Ids of the cache entries. -/
def ids (l : List SessionStatus) : List String :=
  l.map (·.id)

/-- `!apiSessionIds.has(s.id)` — `s` is a local-only session with respect
to the snapshot `sessions`. -/
def localOnlyPred (sessions : List SessionStatus) (s : SessionStatus) : Bool :=
  !(sessions.any (fun t => t.id == s.id))

/-- `JulesClient._updateCache` of the `src/unnamed/part_004` revision
(lines 630–665): keep the cache untouched on an empty snapshot when the
cache is non-empty; otherwise preserve the cached sessions absent from the
snapshot, sort the union newest-first, and rebuild the map. -/
def updateCacheMerge (cache : List SessionStatus) (sessions : List SessionStatus) :
    List SessionStatus :=
  if sessions.isEmpty && !cache.isEmpty then cache
  else
    let localOnly := cache.filter (localOnlyPred sessions)
    buildMap (sortDesc (sessions ++ localOnly))

/-- `JulesClient._updateCache` of `src/julesClient.ts` (lines 380–391):
sort the fetched array newest-first, clear the cache and insert every
fetched session. The previous cache contents are discarded wholesale. -/
def updateCacheReplace (_cache : List SessionStatus) (sessions : List SessionStatus) :
    List SessionStatus :=
  buildMap (sortDesc sessions)

/-! ## Remote wire format and `parseApiSession` -/

/-- `JulesApiSession` wire record (all fields optional); `createTime` /
`updateTime` carry the parsed epoch value of the ISO string. -/
structure JulesApiSession where
  name : Option String := none
  title : Option String := none
  prompt : Option String := none
  state : Option String := none
  createTime : Option Int := none
  updateTime : Option Int := none
  outputBranch : Option String := none
deriving DecidableEq, Repr

/-- JavaScript `a || b` on an optional string (`undefined` and `""` are
falsy). -/
def strOr (a : Option String) (b : String) : String :=
  match a with
  | some s => if s = "" then b else s
  | none => b

/-- `apiSession.name?.split('/').pop() || apiSession.name || 'unknown'`. -/
def extractId (name : Option String) : String :=
  match name with
  | none => "unknown"
  | some n =>
    let last := (n.splitOn "/").getLastD ""
    if last = "" then (if n = "" then "unknown" else n) else last

/-- The recognized remote lifecycle wire tokens (the `switch` labels of
`parseApiSession`, upper case): the spec's vocabulary queued, planning,
waiting-for-approval, in-progress, paused, completed, finished, failed,
error, cancelled, canceled in wire form. -/
def remoteVocab : List String :=
  ["QUEUED", "PLANNING", "WAITING_FOR_PLAN_APPROVAL", "IN_PROGRESS", "PAUSED",
   "COMPLETED", "FINISHED", "FAILED", "ERROR", "CANCELLED", "CANCELED"]

/-- `toUpperCase` (per-character ASCII upper-casing). -/
def strUpper (s : String) : String :=
  ⟨s.data.map Char.toUpper⟩

/-- `toLowerCase` (per-character ASCII lower-casing). -/
def strLower (s : String) : String :=
  ⟨s.data.map Char.toLower⟩

/-- State mapping of `parseApiSession` in `src/julesClient.ts`
(lines 411–438) and the `part_004` revision: `switch` on
`(apiSession.state || '').toUpperCase()`, defaulting to `pending`. -/
def mapStateSwitch (state : Option String) : SessionState :=
  let st := strUpper (state.getD "")
  if st = "COMPLETED" ∨ st = "FINISHED" then .completed
  else if st = "IN_PROGRESS" ∨ st = "PLANNING" ∨ st = "WAITING_FOR_PLAN_APPROVAL" then .running
  else if st = "FAILED" ∨ st = "ERROR" then .failed
  else if st = "CANCELLED" ∨ st = "CANCELED" then .cancelled
  else .pending

/-- `String.includes`: `pat` occurs as a contiguous substring of `s`. -/
def strContains (s pat : String) : Bool :=
  go s.data
where
  go : List Char → Bool
    | [] => pat.data.isEmpty
    | c :: cs => pat.data.isPrefixOf (c :: cs) || go cs

/-- State mapping of `parseApiSession` in the `src/unnamed/part_005`
revision (lines 282–307): lower-cased substring tests. -/
def mapStateSub (state : Option String) : SessionState :=
  let s := strLower (state.getD "")
  if strContains s "complete" || strContains s "finished" then .completed
  else if strContains s "running" || strContains s "active" || strContains s "in_progress" then .running
  else if strContains s "fail" || strContains s "error" then .failed
  else if strContains s "cancel" then .cancelled
  else .pending

/-- `JulesClient.parseApiSession` (switch revision); `now` is the value of
`new Date().toISOString()` used when a timestamp is missing. -/
def parseApiSession (now : Int) (a : JulesApiSession) : SessionStatus :=
  { id := extractId a.name
    task := strOr a.title (strOr (a.prompt.map (·.take 100)) "Jules Session")
    status := mapStateSwitch a.state
    createdAt := a.createTime.getD now
    updatedAt := a.updateTime.getD now
    remoteBranch := a.outputBranch }

/-- `JulesClient.parseApiSession` of the `part_005` revision (substring
state mapping; all other fields identical). -/
def parseApiSessionSub (now : Int) (a : JulesApiSession) : SessionStatus :=
  { id := extractId a.name
    task := strOr a.title (strOr (a.prompt.map (·.take 100)) "Jules Session")
    status := mapStateSub a.state
    createdAt := a.createTime.getD now
    updatedAt := a.updateTime.getD now
    remoteBranch := a.outputBranch }

/-! ## `listSessions` return value -/

/-- Return value of a successful `JulesClient.listSessions` in
`src/julesClient.ts` (lines 238–261): `_fetchSessionsMethod1` parses the
remote collection, `_updateCache(sessions)` sorts that very array in place
(`Array.prototype.sort`), and the same array is returned. -/
def listSessionsResult (now : Int) (apiSessions : List JulesApiSession) :
    List SessionStatus :=
  sortDesc (apiSessions.map (parseApiSession now))

/-- Return value of a successful `JulesClient.listSessions` in the
`src/unnamed/part_004` revision (lines 505–513): the parse output of
`_fetchSessionsMethod1` is returned directly, in the remote collection's
order; only `getActiveSessions` later merges it into the (sorted) cache. -/
def listSessionsResultPrev (now : Int) (apiSessions : List JulesApiSession) :
    List SessionStatus :=
  apiSessions.map (parseApiSession now)

/-! ## `createSession` error paths -/

/-- Error taxonomy of julesClient.ts: the generic `JulesApiError`
(message, optional status code, optional raw diagnostic text) versus the
distinguished `ProjectNotInitializedError` carrying the owner and repo. -/
inductive JulesError where
  | apiError (message : String) (statusCode : Option Int) (rawError : Option String)
  | projectNotInitialized (owner : String) (repo : String)
deriving DecidableEq, Repr

/-- The user-facing message of an error. -/
def JulesError.message : JulesError → String
  | .apiError m _ _ => m
  | .projectNotInitialized owner repo =>
      "Jules does not have access to " ++ owner ++ "/" ++ repo ++ ". " ++
      "Please install the Jules GitHub App at https://jules.google.com/settings/repositories"

/-- The internal diagnostic field (`rawError`) of an error. -/
def JulesError.raw : JulesError → Option String
  | .apiError _ _ r => r
  | .projectNotInitialized _ _ => none

/-- `JulesClient.sanitizeApiError` (fixed table keyed by status code). -/
def sanitizeApiError (statusCode : Int) : String :=
  if statusCode = 400 then "Invalid request. Please check your repository configuration."
  else if statusCode = 401 then "Authentication failed. Please verify your API key is correct."
  else if statusCode = 403 then "Access denied. Check your Jules permissions."
  else if statusCode = 404 then "Repository not found in Jules. Please add it at jules.google.com/settings/repositories"
  else if statusCode = 408 then "Request timed out. Please try again."
  else if statusCode = 429 then "Rate limit exceeded. Please try again later."
  else if statusCode = 500 then "Jules API error. Please try again."
  else if statusCode = 503 then "Jules service is temporarily unavailable."
  else "API request failed with status " ++ toString statusCode

/-- The 404 body marker checked by both clients. -/
def notFoundMarker : String := "Requested entity was not found"

/-- The error thrown by `JulesClient.createSession` (`src/julesClient.ts`
lines 170–181) on a non-2xx response with status `status` and body
`body`. -/
def createSessionFailure (owner repo : String) (status : Int) (body : String) :
    JulesError :=
  if status = 404 ∧ strContains body notFoundMarker then
    .projectNotInitialized owner repo
  else
    .apiError (sanitizeApiError status) (some status) (some body)

/-- The error thrown by `JulesClientNode.createSession`
(`src/unnamed/part_002` lines 175–183) on a non-2xx response: the raw
body is interpolated into the message. -/
def createSessionFailureNode (owner repo : String) (status : Int) (body : String) :
    JulesError :=
  if status = 404 ∧ strContains body notFoundMarker then
    .projectNotInitialized owner repo
  else
    .apiError ("API Request failed: " ++ body) (some status) (some body)

/-! ## JSON-RPC bridge (`src/mcp/BridgeServer.ts`) -/

/-- JSON values (sufficient for the bridge's payloads). -/
inductive Json where
  | null
  | bool (b : Bool)
  | num (n : Int)
  | str (s : String)
  | arr (elems : List Json)
  | obj (fields : List (String × Json))

/-- A JSON-RPC id (`string | number`). -/
inductive RpcId where
  | num (n : Int)
  | str (s : String)
deriving DecidableEq, Repr

/-- A parsed incoming message that has an `id` field (a request). -/
structure RpcRequestMsg where
  id : RpcId
  method : String
  params : Option Json := none

/-- A parsed incoming message without an `id` field (a notification). -/
structure RpcNotificationMsg where
  method : String
  params : Option Json := none

/-- The outcome of `JSON.parse` on one trimmed non-blank input line, as
branched on by `_handleIncomingLine`: a throw, a message with `id`, or a
message without `id`. -/
inductive LineInput where
  | malformed
  | request (r : RpcRequestMsg)
  | notif (n : RpcNotificationMsg)

/-- `error: { code, message }` member of a response. -/
structure RpcErrorObj where
  code : Int
  message : String
deriving DecidableEq, Repr

/-- Either the `result` or the `error` member of a response. -/
inductive RpcPayload where
  | result (r : Json)
  | rpcError (e : RpcErrorObj)

/-- A JSON-RPC response as written to stdout; `id := none` renders as
`"id": null` (the parse-error case). -/
structure RpcResponse where
  jsonrpc : String
  id : Option RpcId
  payload : RpcPayload

/-- `BridgeServer._handleRequest` (lines 172–214): dispatch on the method
name. The payloads of `initialize` and `tools/list` and the whole
`tools/call` handler involve external collaborators (`./types` schema,
context gathering, `createSession`) and are passed in as parameters
`initResult`, `toolsResult` and `toolCall`; the dispatch structure itself
is from the source. -/
def handleRequest (initResult toolsResult : Json)
    (toolCall : RpcId → Option Json → RpcResponse) (req : RpcRequestMsg) :
    RpcResponse :=
  if req.method = "initialize" then
    { jsonrpc := "2.0", id := some req.id, payload := .result initResult }
  else if req.method = "tools/list" then
    { jsonrpc := "2.0", id := some req.id, payload := .result toolsResult }
  else if req.method = "tools/call" then
    toolCall req.id req.params
  else if req.method = "ping" then
    { jsonrpc := "2.0", id := some req.id,
      payload := .result (.obj [("pong", .bool true)]) }
  else
    { jsonrpc := "2.0", id := some req.id,
      payload := .rpcError ⟨-32601, "Method not found: " ++ req.method⟩ }

/-- `BridgeServer._handleIncomingLine` (lines 138–167) on a non-blank
line: the list of responses written to stdout. A parse failure sends the
Parse Error response with `id: null`; a request sends exactly the
`_handleRequest` response; a notification sends nothing
(`_handleNotification` only logs). -/
def handleIncomingLine (initResult toolsResult : Json)
    (toolCall : RpcId → Option Json → RpcResponse) :
    LineInput → List RpcResponse
  | .malformed =>
      [{ jsonrpc := "2.0", id := none,
         payload := .rpcError ⟨-32700, "Parse error: Invalid JSON"⟩ }]
  | .request r => [handleRequest initResult toolsResult toolCall r]
  | .notif _ => []

/-! ## Retry envelope

Modelled from the spec: the `executeWithRetry` wrapper is documented in
`DEVELOPMENT.md` ("All API calls should be wrapped in `executeWithRetry`")
and `docs/Architecture.md` ("Catches 429 & 503 … retries with exponential
backoff (1s -> 2s -> 4s…)"), but its implementation is not among the
source files; the definitions below follow §4.1 of the spec: up to N
attempts (default 3), delay `base_delay * 2 ^ attempt_index` between
attempts with `attempt_index` starting at 0 for the first retry, retry
only on transport failure, timeout, HTTP 429 or 503, and surface the last
observed failure on exhaustion. -/

/-- A failure of one attempt. -/
inductive FailureKind where
  | transport
  | timeout
  | httpStatus (code : Int)
  | malformedBody
deriving DecidableEq, Repr

/-- The retryable-failure set of §4.1. -/
def isRetryable : FailureKind → Bool
  | .transport => true
  | .timeout => true
  | .httpStatus code => code == 429 || code == 503
  | .malformedBody => false

/-- The observable trace of one wrapped call: how many attempts ran, the
backoff delays slept between them, and the final outcome. -/
structure RetryTrace (α : Type) where
  attemptsMade : Nat
  delays : List Nat
  outcome : Except FailureKind α
deriving Repr

/-- Modelled from the spec: the retry loop, at attempt index `i` with
`remaining` attempts allowed. `f i` is the outcome of the `i`-th attempt
of the wrapped operation. -/
def retryGo (f : Nat → Except FailureKind α) (base : Nat) :
    (i : Nat) → (remaining : Nat) → RetryTrace α
  | _, 0 => ⟨0, [], .error .transport⟩
  | i, n + 1 =>
    match f i with
    | .ok a => ⟨1, [], .ok a⟩
    | .error e =>
      if n = 0 ∨ isRetryable e = false then ⟨1, [], .error e⟩
      else
        let r := retryGo f base (i + 1) n
        ⟨r.attemptsMade + 1, base * 2 ^ i :: r.delays, r.outcome⟩

/-- Modelled from the spec: `executeWithRetry` with attempt bound
`maxAttempts` (default 3) and backoff base `base`. -/
def executeWithRetry (f : Nat → Except FailureKind α) (maxAttempts : Nat)
    (base : Nat) : RetryTrace α :=
  retryGo f base 0 maxAttempts

/-! ## `PromptGenerator.loadContextFiles` (`src/unnamed/part_004`, lines 89–132) -/

/-- A context file as returned by `loadContextFiles`. -/
structure ContextFile where
  path : String
  content : String
  language : String
deriving DecidableEq, Repr

/-- What the filesystem holds at an absolute path: a size (`statSync`) and
either the file's text or a read failure (`readFileSync` throwing). A
missing path (or one where `statSync` itself throws) is `none` in the
`fs` map. -/
structure FsEntry where
  size : Nat
  readResult : Option String
deriving DecidableEq, Repr

/-- `_maxFileSize` (100KB per file). -/
def maxFileSize : Nat := 100000

/-- `_maxTotalSize` (500KB total). -/
def maxTotalSize : Nat := 500000

/-- The loop of `loadContextFiles` with accumulated `totalSize`:
skip missing files, skip files over `_maxFileSize`, stop (`break`) when
the total would exceed `_maxTotalSize`, skip unreadable files
(`catch { continue }`), otherwise append the file. `resolve` models
`_resolveFilePath` and `detectLang` models `_detectLanguage` (both driven
by external collaborators: the workspace root and `path.extname`). -/
def loadContextFilesGo (fs : String → Option FsEntry) (resolve : String → String)
    (detectLang : String → String) : List String → Nat → List ContextFile
  | [], _ => []
  | p :: ps, total =>
    match fs (resolve p) with
    | none => loadContextFilesGo fs resolve detectLang ps total
    | some entry =>
      if entry.size > maxFileSize then
        loadContextFilesGo fs resolve detectLang ps total
      else if total + entry.size > maxTotalSize then
        []
      else
        match entry.readResult with
        | none => loadContextFilesGo fs resolve detectLang ps total
        | some content =>
            ⟨p, content, detectLang (resolve p)⟩ ::
              loadContextFilesGo fs resolve detectLang ps (total + entry.size)

/-- `PromptGenerator.loadContextFiles`. -/
def loadContextFiles (fs : String → Option FsEntry) (resolve : String → String)
    (detectLang : String → String) (filePaths : List String) : List ContextFile :=
  loadContextFilesGo fs resolve detectLang filePaths 0

/-- The size `loadContextFiles` accounts for an included file: the
`statSync` size of its resolved path. -/
def fsSizeOf (fs : String → Option FsEntry) (resolve : String → String)
    (f : ContextFile) : Nat :=
  match fs (resolve f.path) with
  | none => 0
  | some entry => entry.size

/-- A tiny concrete filesystem used to instantiate the context-loader
invariants: one small readable file, one file over the per-file limit. -/
def sampleFs : String → Option FsEntry := fun p =>
  if p = "a.txt" then some ⟨10, some "hello"⟩
  else if p = "big.bin" then some ⟨200000, some "x"⟩
  else none

/-! ## Lemmas about the stable descending sort -/

theorem insertDesc_nil (x : SessionStatus) : insertDesc x [] = [x] := rfl

theorem insertDesc_cons_of_le (x y : SessionStatus) (ys : List SessionStatus)
    (h : y.createdAt ≤ x.createdAt) : insertDesc x (y :: ys) = x :: y :: ys := by
  simp [insertDesc, h]

theorem insertDesc_cons_of_gt (x y : SessionStatus) (ys : List SessionStatus)
    (h : ¬ y.createdAt ≤ x.createdAt) : insertDesc x (y :: ys) = y :: insertDesc x ys := by
  simp [insertDesc, h]

theorem insertDesc_perm (x : SessionStatus) (l : List SessionStatus) :
    List.Perm (insertDesc x l) (x :: l) := by
  induction l with
  | nil => exact List.Perm.refl _
  | cons y ys ih =>
    by_cases hle : y.createdAt ≤ x.createdAt
    · rw [insertDesc_cons_of_le x y ys hle]
    · rw [insertDesc_cons_of_gt x y ys hle]
      exact (ih.cons y).trans (List.Perm.swap x y ys)

theorem sortDesc_perm (l : List SessionStatus) : List.Perm (sortDesc l) l := by
  induction l with
  | nil => exact List.Perm.refl _
  | cons x xs ih => exact (insertDesc_perm x (sortDesc xs)).trans (ih.cons x)

theorem mem_insertDesc {z x : SessionStatus} {l : List SessionStatus}
    (hz : z ∈ insertDesc x l) : z = x ∨ z ∈ l :=
  List.mem_cons.mp ((insertDesc_perm x l).mem_iff.mp hz)

theorem sortedDesc_insertDesc (x : SessionStatus) :
    ∀ l : List SessionStatus, SortedDesc l → SortedDesc (insertDesc x l) := by
  intro l
  induction l with
  | nil =>
    intro _
    simp [insertDesc, SortedDesc]
  | cons y ys ih =>
    intro h
    simp only [SortedDesc, List.pairwise_cons] at h
    obtain ⟨hy, hys⟩ := h
    by_cases hle : y.createdAt ≤ x.createdAt
    · rw [insertDesc_cons_of_le x y ys hle]
      simp only [SortedDesc, List.pairwise_cons]
      refine ⟨?_, hy, hys⟩
      intro z hz
      rcases List.mem_cons.mp hz with rfl | hz
      · exact hle
      · exact le_trans (hy z hz) hle
    · rw [insertDesc_cons_of_gt x y ys hle]
      simp only [SortedDesc, List.pairwise_cons]
      refine ⟨?_, ih hys⟩
      intro z hz
      rcases mem_insertDesc hz with rfl | hz
      · omega
      · exact hy z hz

theorem sortDesc_sorted (l : List SessionStatus) : SortedDesc (sortDesc l) := by
  induction l with
  | nil => simp [sortDesc, SortedDesc]
  | cons x xs ih => exact sortedDesc_insertDesc x _ ih

theorem insertDesc_eq_cons (x : SessionStatus) (l : List SessionStatus)
    (h : ∀ z ∈ l, z.createdAt ≤ x.createdAt) : insertDesc x l = x :: l := by
  cases l with
  | nil => rfl
  | cons y ys => exact insertDesc_cons_of_le x y ys (h y (List.mem_cons_self y ys))

theorem sortDesc_of_sorted : ∀ l : List SessionStatus, SortedDesc l → sortDesc l = l := by
  intro l
  induction l with
  | nil => intro _; rfl
  | cons x xs ih =>
    intro h
    simp only [SortedDesc, List.pairwise_cons] at h
    show insertDesc x (sortDesc xs) = x :: xs
    rw [ih h.2, insertDesc_eq_cons x xs h.1]

theorem sortDesc_append_sortDesc (A B : List SessionStatus) :
    sortDesc (A ++ sortDesc B) = sortDesc (A ++ B) := by
  induction A with
  | nil => simpa using sortDesc_of_sorted (sortDesc B) (sortDesc_sorted B)
  | cons a A ih =>
    show insertDesc a (sortDesc (A ++ sortDesc B)) = insertDesc a (sortDesc (A ++ B))
    rw [ih]

theorem filter_insertDesc (p : SessionStatus → Bool) (x : SessionStatus) :
    ∀ l : List SessionStatus, SortedDesc l →
      (insertDesc x l).filter p =
        if p x then insertDesc x (l.filter p) else l.filter p := by
  intro l
  induction l with
  | nil =>
    intro _
    by_cases hp : p x <;> simp [insertDesc, hp]
  | cons y ys ih =>
    intro h
    simp only [SortedDesc, List.pairwise_cons] at h
    obtain ⟨hy, hys⟩ := h
    by_cases hle : y.createdAt ≤ x.createdAt
    · rw [insertDesc_cons_of_le x y ys hle]
      by_cases hpx : p x
      · rw [if_pos hpx, List.filter_cons, if_pos hpx, List.filter_cons]
        by_cases hpy : p y
        · rw [if_pos hpy, insertDesc_cons_of_le x y (ys.filter p) hle]
        · rw [if_neg hpy]
          rw [insertDesc_eq_cons x (ys.filter p)]
          intro z hz
          exact le_trans (hy z (List.mem_of_mem_filter hz)) hle
      · rw [if_neg hpx, List.filter_cons, if_neg hpx]
    · rw [insertDesc_cons_of_gt x y ys hle, List.filter_cons]
      by_cases hpy : p y
      · rw [if_pos hpy, List.filter_cons, if_pos hpy, ih hys]
        by_cases hpx : p x
        · rw [if_pos hpx, if_pos hpx, insertDesc_cons_of_gt x y (ys.filter p) hle]
        · rw [if_neg hpx, if_neg hpx]
      · rw [if_neg hpy, List.filter_cons, if_neg hpy, ih hys]

theorem filter_sortDesc (p : SessionStatus → Bool) (l : List SessionStatus) :
    (sortDesc l).filter p = sortDesc (l.filter p) := by
  induction l with
  | nil => rfl
  | cons x xs ih =>
    show (insertDesc x (sortDesc xs)).filter p = sortDesc ((x :: xs).filter p)
    rw [filter_insertDesc p x _ (sortDesc_sorted xs), ih, List.filter_cons]
    split <;> rfl

/-! ## Lemmas about the cache map -/

theorem mapSet_of_not_mem (c : List SessionStatus) (x : SessionStatus)
    (h : x.id ∉ ids c) : mapSet c x = c ++ [x] := by
  induction c with
  | nil => rfl
  | cons t ts ih =>
    simp only [ids, List.map_cons, List.mem_cons, not_or] at h
    show (if t.id = x.id then x :: ts else t :: mapSet ts x) = t :: (ts ++ [x])
    rw [if_neg (fun e => h.1 e.symm), ih (by simpa [ids] using h.2)]

theorem foldl_mapSet_eq_append :
    ∀ (l c : List SessionStatus), (ids (c ++ l)).Nodup → l.foldl mapSet c = c ++ l := by
  intro l
  induction l with
  | nil => intro c _; simp
  | cons x xs ih =>
    intro c h
    show xs.foldl mapSet (mapSet c x) = c ++ x :: xs
    simp only [ids, List.map_append, List.map_cons] at h
    have hsplit := List.nodup_append.mp h
    have hx : x.id ∉ ids c := by
      intro hmem
      exact hsplit.2.2 hmem (List.mem_cons_self _ _)
    rw [mapSet_of_not_mem c x hx, ih (c ++ [x]) ?_, List.append_assoc]
    · rfl
    · simpa [ids, List.append_assoc] using h

theorem buildMap_of_nodup (l : List SessionStatus) (h : (ids l).Nodup) :
    buildMap l = l := by
  have := foldl_mapSet_eq_append l [] (by simpa [ids] using h)
  simpa [buildMap] using this

theorem filter_mapSet (p : String → Bool) (x : SessionStatus) :
    ∀ c : List SessionStatus,
      (mapSet c x).filter (fun s => p s.id) =
        if p x.id then mapSet (c.filter (fun s => p s.id)) x
        else c.filter (fun s => p s.id) := by
  intro c
  induction c with
  | nil => by_cases hp : p x.id <;> simp [mapSet, hp]
  | cons t ts ih =>
    show (if t.id = x.id then x :: ts else t :: mapSet ts x).filter (fun s => p s.id) = _
    by_cases hid : t.id = x.id
    · rw [if_pos hid]
      by_cases hp : p x.id
      · rw [if_pos hp, List.filter_cons, if_pos (by simpa using hp), List.filter_cons,
          if_pos (by simpa [hid] using hp)]
        show x :: ts.filter _ = mapSet (t :: ts.filter _) x
        show _ = (if t.id = x.id then x :: ts.filter _ else _)
        rw [if_pos hid]
      · rw [if_neg hp, List.filter_cons, if_neg (by simpa using hp), List.filter_cons,
          if_neg (by simpa [hid] using hp)]
    · rw [if_neg hid, List.filter_cons]
      by_cases hpt : p t.id <;> by_cases hp : p x.id <;>
        simp [List.filter_cons, hpt, hp, ih, mapSet, hid]

theorem filter_foldl_mapSet (p : String → Bool) :
    ∀ (l c : List SessionStatus),
      (l.foldl mapSet c).filter (fun s => p s.id) =
        (l.filter (fun s => p s.id)).foldl mapSet (c.filter (fun s => p s.id)) := by
  intro l
  induction l with
  | nil => intro c; rfl
  | cons x xs ih =>
    intro c
    show (xs.foldl mapSet (mapSet c x)).filter _ = ((x :: xs).filter _).foldl mapSet _
    rw [ih (mapSet c x), filter_mapSet, List.filter_cons]
    by_cases hp : p x.id
    · rw [if_pos hp, if_pos (by simpa using hp)]
      rfl
    · rw [if_neg hp, if_neg (by simpa using hp)]

theorem filter_buildMap (p : String → Bool) (l : List SessionStatus) :
    (buildMap l).filter (fun s => p s.id) = buildMap (l.filter (fun s => p s.id)) := by
  have := filter_foldl_mapSet p l []
  simpa [buildMap] using this

/-- The local-only test of `_updateCache` is a function of the session id
alone. -/
theorem localOnlyPred_eq (sessions : List SessionStatus) (s : SessionStatus) :
    localOnlyPred sessions s = !(sessions.any (fun t => t.id == s.id)) := rfl

theorem mem_ids_of_mem {s : SessionStatus} {l : List SessionStatus}
    (h : s ∈ l) : s.id ∈ ids l := List.mem_map_of_mem (·.id) h

theorem ids_nodup_of_perm {l₁ l₂ : List SessionStatus}
    (hperm : List.Perm l₁ l₂) (h : (ids l₂).Nodup) : (ids l₁).Nodup := by
  simp only [ids] at h ⊢
  exact (List.Perm.map (·.id) hperm).nodup_iff.mpr h

theorem ids_filter_nodup (p : SessionStatus → Bool) (l : List SessionStatus)
    (h : (ids l).Nodup) : (ids (l.filter p)).Nodup := by
  simp only [ids] at h ⊢
  exact (List.Sublist.map (·.id) (List.filter_sublist l)).nodup h

/-! ## Reconciliation lemmas -/

/-- The local-only test, expressed on the id alone. -/
def notInIds (S : List SessionStatus) (i : String) : Bool :=
  !(S.any (fun t => t.id == i))

theorem updateCacheMerge_of_ne_nil (c S : List SessionStatus) (hS : S ≠ []) :
    updateCacheMerge c S = buildMap (sortDesc (S ++ c.filter (localOnlyPred S))) := by
  cases S with
  | nil => exact absurd rfl hS
  | cons a t =>
    unfold updateCacheMerge
    rw [if_neg (by simp)]

theorem filter_localOnly_self (S : List SessionStatus) :
    S.filter (localOnlyPred S) = [] := by
  rw [List.filter_eq_nil_iff]
  intro t ht
  have hany : S.any (fun x => x.id == t.id) = true :=
    List.any_eq_true.mpr ⟨t, ht, by simp⟩
  simp [localOnlyPred, hany]

theorem filter_localOnly_idem (S c : List SessionStatus) :
    (c.filter (localOnlyPred S)).filter (localOnlyPred S) = c.filter (localOnlyPred S) := by
  induction c with
  | nil => rfl
  | cons a c ih =>
    by_cases h : localOnlyPred S a = true
    · simp [List.filter_cons, h, ih]
    · simp [List.filter_cons, h, ih]

/-- Idempotence of the merge-based `_updateCache` on a non-empty snapshot
(the cache has no duplicate ids, an invariant of the JavaScript `Map`). -/
theorem updateCacheMerge_idem (c S : List SessionStatus) (hS : S ≠ [])
    (hc : (ids c).Nodup) :
    updateCacheMerge (updateCacheMerge c S) S = updateCacheMerge c S := by
  rw [updateCacheMerge_of_ne_nil c S hS]
  set lo := c.filter (localOnlyPred S) with hlo
  rw [updateCacheMerge_of_ne_nil _ S hS]
  have h1 : (buildMap (sortDesc (S ++ lo))).filter (localOnlyPred S) = sortDesc lo := by
    have e1 : (buildMap (sortDesc (S ++ lo))).filter (fun s => notInIds S s.id)
        = buildMap ((sortDesc (S ++ lo)).filter (fun s => notInIds S s.id)) :=
      filter_buildMap (notInIds S) (sortDesc (S ++ lo))
    have e1' : (buildMap (sortDesc (S ++ lo))).filter (localOnlyPred S)
        = buildMap ((sortDesc (S ++ lo)).filter (localOnlyPred S)) := e1
    rw [e1', filter_sortDesc, List.filter_append, filter_localOnly_self,
      List.nil_append, hlo, filter_localOnly_idem]
    apply buildMap_of_nodup
    apply ids_nodup_of_perm (sortDesc_perm _)
    exact ids_filter_nodup _ c hc
  rw [h1, sortDesc_append_sortDesc]

/-! ## Concrete sessions for counterexamples and witnesses -/

/-- A concrete session (id "A", created at time 100). -/
def sessionA : SessionStatus :=
  { id := "A", task := "task-a", status := .pending, createdAt := 100, updatedAt := 100 }

/-- A concrete session (id "B", created at time 200). -/
def sessionB : SessionStatus :=
  { id := "B", task := "task-b", status := .running, createdAt := 200, updatedAt := 200 }

/-- A wire session with the older creation time, first in the remote
collection. -/
def apiOld : JulesApiSession :=
  { name := some "sessions/old", createTime := some 0, updateTime := some 0 }

/-- A wire session with the newer creation time, second in the remote
collection. -/
def apiNew : JulesApiSession :=
  { name := some "sessions/new", createTime := some 5, updateTime := some 5 }

/-! ## Claims about the session-cache reconciler -/

/-- C1 (counterexample): in `src/julesClient.ts`, `_updateCache` with an
empty snapshot on the non-empty cache `{A}` empties the cache instead of
retaining it, refuting the claim as stated for that cited revision. -/
theorem claim_C1_counterexample :
    updateCacheReplace [sessionA] [] = [] ∧ [sessionA] ≠ ([] : List SessionStatus) := by
  exact ⟨rfl, by decide⟩

/-- C1 (amended): merging an empty remote snapshot into a non-empty cache
leaves the cache exactly unchanged under the merge-based `_updateCache`
(`part_004` revision); the replace-based `_updateCache` of
`src/julesClient.ts` instead clears the cache. -/
theorem claim_C1 (cache : List SessionStatus) (h : cache ≠ []) :
    updateCacheMerge cache [] = cache ∧ updateCacheReplace cache [] = [] := by
  refine ⟨?_, rfl⟩
  cases cache with
  | nil => exact absurd rfl h
  | cons a t => rfl

/-- C1 (witness): the amended theorem at the concrete cache `{A}`. -/
theorem claim_C1_witness :
    updateCacheMerge [sessionA] [] = [sessionA] ∧ updateCacheReplace [sessionA] [] = [] :=
  claim_C1 [sessionA] (by decide)

/-- C2 (counterexample): with the merge-based `_updateCache`, after both
`A` and `B` appeared in a remote snapshot (first merge), a non-empty
snapshot `[B]` omitting `A` still leaves `A` in the cache — the cache does
not contain only `B`, refuting the claim as stated for that cited
revision. -/
theorem claim_C2_counterexample :
    sessionA ∈ updateCacheMerge (updateCacheMerge [] [sessionA, sessionB]) [sessionB] := by
  decide

/-- C2 (amended): merging the non-empty snapshot `[B]` with the
replace-based `_updateCache` of `src/julesClient.ts` leaves exactly `{B}`
in the cache whatever the cache held; the merge-based `_updateCache` of
the `part_004` revision instead preserves the previously-seen session `A`
as local-only, so absence from a non-empty snapshot does not remove it
there. -/
theorem claim_C2 (A B : SessionStatus) (h : A.id ≠ B.id) :
    (∀ cache : List SessionStatus, updateCacheReplace cache [B] = [B]) ∧
    A ∈ updateCacheMerge (updateCacheMerge [] [A, B]) [B] := by
  refine ⟨fun _ => rfl, ?_⟩
  have hnodup : (ids [A, B]).Nodup := by simp [ids, h]
  have h0 : updateCacheMerge [] [A, B] = sortDesc [A, B] := by
    rw [updateCacheMerge_of_ne_nil [] [A, B] (by simp)]
    simp only [List.filter_nil, List.append_nil]
    exact buildMap_of_nodup _ (ids_nodup_of_perm (sortDesc_perm _) hnodup)
  rw [h0, updateCacheMerge_of_ne_nil _ [B] (by simp)]
  set lo := (sortDesc [A, B]).filter (localOnlyPred [B]) with hlo
  have hAlo : A ∈ lo := by
    rw [hlo]
    apply List.mem_filter.mpr
    refine ⟨(sortDesc_perm [A, B]).mem_iff.mpr (by simp), ?_⟩
    simp only [localOnlyPred, List.any_cons, List.any_nil, Bool.or_false,
      Bool.not_eq_true', beq_eq_false_iff_ne, ne_eq]
    exact fun e => h e.symm
  have hlonodup : (ids lo).Nodup := by
    rw [hlo]
    exact ids_filter_nodup _ _ (ids_nodup_of_perm (sortDesc_perm _) hnodup)
  have hBnotin : B.id ∉ ids lo := by
    intro hmem
    simp only [ids, List.mem_map] at hmem
    obtain ⟨u, hu, huid⟩ := hmem
    rw [hlo] at hu
    have hpred := (List.mem_filter.mp hu).2
    simp only [localOnlyPred, List.any_cons, List.any_nil, Bool.or_false,
      Bool.not_eq_true', beq_eq_false_iff_ne, ne_eq] at hpred
    exact hpred huid.symm
  have hids : (ids ([B] ++ lo)).Nodup := by
    simp only [ids, List.map_append, List.map_cons, List.map_nil]
    rw [List.nodup_append]
    refine ⟨List.nodup_singleton _, hlonodup, ?_⟩
    intro i hi
    simp only [List.mem_singleton] at hi
    subst hi
    simpa [ids] using hBnotin
  have hbm : buildMap (sortDesc ([B] ++ lo)) = sortDesc ([B] ++ lo) :=
    buildMap_of_nodup _ (ids_nodup_of_perm (sortDesc_perm _) hids)
  rw [hbm]
  apply (sortDesc_perm _).mem_iff.mpr
  exact List.mem_append.mpr (Or.inr hAlo)

/-- C2 (witness): the amended theorem at the concrete sessions `A`, `B`. -/
theorem claim_C2_witness :
    (∀ cache : List SessionStatus, updateCacheReplace cache [sessionB] = [sessionB]) ∧
    sessionA ∈ updateCacheMerge (updateCacheMerge [] [sessionA, sessionB]) [sessionB] :=
  claim_C2 sessionA sessionB (by decide)

/-- C3: merging the same non-empty remote snapshot twice in a row yields
the same cache contents as merging it once, for both `_updateCache`
variants (the merge-based `part_004` revision and the replace-based
`src/julesClient.ts` one); the cache has no duplicate ids, an invariant
of the JavaScript `Map` it lives in. -/
theorem claim_C3 (c S : List SessionStatus) (hS : S ≠ []) (hc : (ids c).Nodup) :
    updateCacheMerge (updateCacheMerge c S) S = updateCacheMerge c S ∧
    updateCacheReplace (updateCacheReplace c S) S = updateCacheReplace c S :=
  ⟨updateCacheMerge_idem c S hS hc, rfl⟩

/-- C3 (witness): idempotence at the concrete cache `{A}` and snapshot
`[B]`. -/
theorem claim_C3_witness :
    updateCacheMerge (updateCacheMerge [sessionA] [sessionB]) [sessionB] =
      updateCacheMerge [sessionA] [sessionB] ∧
    updateCacheReplace (updateCacheReplace [sessionA] [sessionB]) [sessionB] =
      updateCacheReplace [sessionA] [sessionB] :=
  claim_C3 [sessionA] [sessionB] (by decide) (by decide)

/-- C6 (counterexample): in the `part_004` revision, `listSessions`
returns the parsed remote collection in the remote order without sorting:
with the older session listed first, the returned list is not ordered
newest-first, refuting the claim as stated for that cited revision. -/
theorem claim_C6_counterexample :
    ¬ SortedDesc (listSessionsResultPrev 0 [apiOld, apiNew]) := by
  intro h
  have h5 : (parseApiSession 0 apiNew).createdAt ≤ (parseApiSession 0 apiOld).createdAt := by
    simp only [listSessionsResultPrev, List.map_cons, List.map_nil, SortedDesc,
      List.pairwise_cons] at h
    exact h.1 _ (by simp)
  simp [parseApiSession, apiOld, apiNew] at h5

/-- C6 (amended): every successful `listSessions` of `src/julesClient.ts`
returns the parsed remote sessions sorted by creation timestamp in
descending order (newest first) — `_updateCache` sorts the fetched array
in place before it is returned; the `part_004` revision's `listSessions`
returns the remote order unsorted. -/
theorem claim_C6 (now : Int) (apiSessions : List JulesApiSession) :
    SortedDesc (listSessionsResult now apiSessions) ∧
    List.Perm (listSessionsResult now apiSessions)
      (apiSessions.map (parseApiSession now)) :=
  ⟨sortDesc_sorted _, sortDesc_perm _⟩

/-! ## Claims about the state mapping and error paths -/

/-- C5 (counterexample): the substring-based state mapping of the
`part_005` revision maps the out-of-vocabulary state string
"preprocessing-error" to `failed` (its `includes('error')` test fires),
not to the documented `pending` default, refuting the claim as stated for
that cited revision. -/
theorem claim_C5_counterexample :
    mapStateSub (some "preprocessing-error") = .failed ∧
    SessionState.failed ≠ SessionState.pending ∧
    strUpper "preprocessing-error" ∉ remoteVocab := by
  decide

/-- C5 (amended): the switch-based state mapping of `src/julesClient.ts`
(`parseApiSession`, lines 411–438) is a total function realising the
fixed table on the remote wire vocabulary — queued ↦ pending,
planning ↦ running, waiting-for-approval ↦ running, in-progress ↦ running,
paused ↦ pending, completed/finished ↦ completed, failed/error ↦ failed,
cancelled/canceled ↦ cancelled — and maps every state string outside the
vocabulary (after the code's upper-casing), as well as a missing state
field, to `pending`; being a total Lean function it never throws. The
substring-based mapping of the `part_005` revision violates the
out-of-vocabulary clause (see the counterexample). -/
theorem claim_C5 (s : String) (h : strUpper s ∉ remoteVocab) :
    (mapStateSwitch (some "QUEUED") = .pending ∧
     mapStateSwitch (some "PLANNING") = .running ∧
     mapStateSwitch (some "WAITING_FOR_PLAN_APPROVAL") = .running ∧
     mapStateSwitch (some "IN_PROGRESS") = .running ∧
     mapStateSwitch (some "PAUSED") = .pending ∧
     mapStateSwitch (some "COMPLETED") = .completed ∧
     mapStateSwitch (some "FINISHED") = .completed ∧
     mapStateSwitch (some "FAILED") = .failed ∧
     mapStateSwitch (some "ERROR") = .failed ∧
     mapStateSwitch (some "CANCELLED") = .cancelled ∧
     mapStateSwitch (some "CANCELED") = .cancelled) ∧
    mapStateSwitch (some s) = .pending ∧
    mapStateSwitch none = .pending := by
  refine ⟨by decide, ?_, by decide⟩
  simp only [remoteVocab, List.mem_cons, List.not_mem_nil, or_false, not_or] at h
  obtain ⟨h1, h2, h3, h4, h5, h6, h7, h8, h9, h10, h11⟩ := h
  simp [mapStateSwitch, h2, h3, h4, h6, h7, h8, h9, h10, h11]

/-- C5 (witness): the amended theorem at the concrete unrecognized state
string "totally-unknown". -/
theorem claim_C5_witness :
    (mapStateSwitch (some "QUEUED") = .pending ∧
     mapStateSwitch (some "PLANNING") = .running ∧
     mapStateSwitch (some "WAITING_FOR_PLAN_APPROVAL") = .running ∧
     mapStateSwitch (some "IN_PROGRESS") = .running ∧
     mapStateSwitch (some "PAUSED") = .pending ∧
     mapStateSwitch (some "COMPLETED") = .completed ∧
     mapStateSwitch (some "FINISHED") = .completed ∧
     mapStateSwitch (some "FAILED") = .failed ∧
     mapStateSwitch (some "ERROR") = .failed ∧
     mapStateSwitch (some "CANCELLED") = .cancelled ∧
     mapStateSwitch (some "CANCELED") = .cancelled) ∧
    mapStateSwitch (some "totally-unknown") = .pending ∧
    mapStateSwitch none = .pending :=
  claim_C5 "totally-unknown" (by decide)

/-- C7 (counterexample): `JulesClientNode.createSession` interpolates the
raw response body into its user-facing message — the message is not
determined by the status code alone, and the raw body appears in it,
refuting the claim as stated for that cited code. -/
theorem claim_C7_counterexample :
    (createSessionFailureNode "o" "r" 500 "secret-body-alpha").message ≠
      (createSessionFailureNode "o" "r" 500 "secret-body-beta").message ∧
    strContains ((createSessionFailureNode "o" "r" 500 "secret-body-alpha").message)
      "secret-body-alpha" = true := by
  decide

/-- C7 (amended): for `JulesClient.createSession` of `src/julesClient.ts`
(lines 170–181), every non-2xx response outside the distinguished 404 case
surfaces a `JulesApiError` whose message is `sanitizeApiError status` — a
fixed table keyed by the status code alone, never containing the response
body — while the raw body is retained only in the internal `rawError`
field; `JulesClientNode.createSession` of the bridge client instead embeds
the raw body in its message (see the counterexample). -/
theorem claim_C7 (owner repo : String) (status : Int) (body : String)
    (h : ¬(status = 404 ∧ strContains body notFoundMarker = true)) :
    createSessionFailure owner repo status body =
      .apiError (sanitizeApiError status) (some status) (some body) := by
  unfold createSessionFailure
  rw [if_neg h]

/-- C7 (witness): the amended theorem at a concrete 500 response. -/
theorem claim_C7_witness :
    createSessionFailure "octo" "proj" 500 "stack trace detail" =
      .apiError (sanitizeApiError 500) (some 500) (some "stack trace detail") :=
  claim_C7 "octo" "proj" 500 "stack trace detail" (by decide)

/-- C9: a 404 response whose body carries the "Requested entity was not
found" marker makes `createSession` (both the extension client and the
bridge's `JulesClientNode`) surface the distinguished
`ProjectNotInitializedError` carrying the original owner and repo, a
constructor disjoint from the generic `JulesApiError` shape. -/
theorem claim_C9 (owner repo body : String)
    (h : strContains body notFoundMarker = true) :
    createSessionFailure owner repo 404 body = .projectNotInitialized owner repo ∧
    createSessionFailureNode owner repo 404 body = .projectNotInitialized owner repo ∧
    (∀ (m : String) (sc : Option Int) (raw : Option String),
        JulesError.projectNotInitialized owner repo ≠ .apiError m sc raw) := by
  refine ⟨?_, ?_, fun m sc raw hh => JulesError.noConfusion hh⟩
  · unfold createSessionFailure
    rw [if_pos ⟨rfl, h⟩]
  · unfold createSessionFailureNode
    rw [if_pos ⟨rfl, h⟩]

/-- C9 (witness): the theorem at a concrete body equal to the marker. -/
theorem claim_C9_witness :
    createSessionFailure "octo" "proj" 404 notFoundMarker =
      .projectNotInitialized "octo" "proj" ∧
    createSessionFailureNode "octo" "proj" 404 notFoundMarker =
      .projectNotInitialized "octo" "proj" ∧
    (∀ (m : String) (sc : Option Int) (raw : Option String),
        JulesError.projectNotInitialized "octo" "proj" ≠ .apiError m sc raw) :=
  claim_C9 "octo" "proj" notFoundMarker (by decide)

/-- C8: on the bridge, a `ping` request with id 7 yields exactly the one
response `{jsonrpc:"2.0", id:7, result:{pong:true}}`; a line that fails to
parse as JSON yields exactly one Parse Error response with code −32700 and
a null id; a message without an `id` field yields no response at all —
for every choice of the external collaborator payloads. -/
theorem claim_C8 (initResult toolsResult : Json)
    (toolCall : RpcId → Option Json → RpcResponse) :
    handleIncomingLine initResult toolsResult toolCall
        (.request { id := .num 7, method := "ping" }) =
      [{ jsonrpc := "2.0", id := some (.num 7),
         payload := .result (.obj [("pong", .bool true)]) }] ∧
    handleIncomingLine initResult toolsResult toolCall .malformed =
      [{ jsonrpc := "2.0", id := none,
         payload := .rpcError ⟨-32700, "Parse error: Invalid JSON"⟩ }] ∧
    (∀ n : RpcNotificationMsg,
        handleIncomingLine initResult toolsResult toolCall (.notif n) = []) :=
  ⟨rfl, rfl, fun _ => rfl⟩

/-! ## Claims about the retry envelope (spec-modelled) -/

theorem retryGo_all_fail {α : Type} (f : Nat → Except FailureKind α) (base : Nat) :
    ∀ (n i : Nat), 0 < n →
      (∀ j, j < n → ∃ e, f (i + j) = .error e ∧ isRetryable e = true) →
      retryGo f base i n =
        ⟨n, (List.range (n - 1)).map (fun j => base * 2 ^ (i + j)), f (i + (n - 1))⟩ := by
  intro n
  induction n with
  | zero => intro i h; exact absurd h (lt_irrefl 0)
  | succ m ih =>
    intro i hpos hf
    obtain ⟨e, he, hre⟩ := hf 0 (Nat.succ_pos m)
    rw [Nat.add_zero] at he
    cases m with
    | zero =>
      simp [retryGo, he]
    | succ k =>
      have hne : ¬(k + 1 = 0 ∨ isRetryable e = false) := by
        rintro (hk | hr)
        · exact Nat.succ_ne_zero k hk
        · rw [hre] at hr; exact Bool.noConfusion hr
      have hrec := ih (i + 1) (Nat.succ_pos k) ?_
      · show retryGo f base i (k + 2) = _
        rw [show retryGo f base i (k + 2) =
            (match f i with
             | .ok a => (⟨1, [], .ok a⟩ : RetryTrace α)
             | .error e =>
               if k + 1 = 0 ∨ isRetryable e = false then ⟨1, [], .error e⟩
               else
                 let r := retryGo f base (i + 1) (k + 1)
                 ⟨r.attemptsMade + 1, base * 2 ^ i :: r.delays, r.outcome⟩) from rfl]
        rw [he]
        simp only [hne, if_false]
        rw [hrec]
        have h1 : i + 1 + (k + 1 - 1) = i + (k + 2 - 1) := by omega
        have h2 : (List.range (k + 2 - 1)).map (fun j => base * 2 ^ (i + j)) =
            base * 2 ^ i :: (List.range (k + 1 - 1)).map (fun j => base * 2 ^ (i + 1 + j)) := by
          show (List.range (k + 1)).map (fun j => base * 2 ^ (i + j)) = _
          rw [List.range_succ_eq_map, List.map_cons, List.map_map]
          refine congrArg₂ _ (by rw [Nat.add_zero]) ?_
          show _ = (List.range k).map (fun j => base * 2 ^ (i + 1 + j))
          apply List.map_congr_left
          intro j _
          show base * 2 ^ (i + Nat.succ j) = base * 2 ^ (i + 1 + j)
          have hexp : i + Nat.succ j = i + 1 + j := by omega
          rw [hexp]
        rw [h2, h1]
      · intro j hj
        have := hf (j + 1) (by omega)
        rwa [show i + (j + 1) = i + 1 + j by omega] at this

/-- C4: the Retry Envelope — modelled from the spec, since
`executeWithRetry` is documented in `DEVELOPMENT.md` and
`docs/Architecture.md` but its implementation is not among the source
files. (1) The retryable set is exactly transport failure, timeout, HTTP
429 and HTTP 503: any other HTTP status and a malformed response body are
non-retryable. (2) A non-retryable first failure makes exactly one
attempt, sleeps no backoff delay, and surfaces that failure. (3) When
every attempt fails retryably, the envelope makes exactly the configured
bound of attempts (default 3), sleeping `base * 2 ^ attempt_index` between
attempts with the index starting at 0 for the first retry, and surfaces
the last observed failure. -/
theorem claim_C4 :
    (isRetryable .transport = true ∧ isRetryable .timeout = true ∧
     isRetryable (.httpStatus 429) = true ∧ isRetryable (.httpStatus 503) = true ∧
     isRetryable .malformedBody = false ∧
     (∀ code : Int, code ≠ 429 → code ≠ 503 → isRetryable (.httpStatus code) = false)) ∧
    (∀ (α : Type) (f : Nat → Except FailureKind α) (N base : Nat) (e : FailureKind),
       0 < N → f 0 = .error e → isRetryable e = false →
       executeWithRetry f N base = ⟨1, [], .error e⟩) ∧
    (∀ (α : Type) (f : Nat → Except FailureKind α) (N base : Nat),
       0 < N → (∀ j, j < N → ∃ e, f j = .error e ∧ isRetryable e = true) →
       executeWithRetry f N base =
         ⟨N, (List.range (N - 1)).map (fun j => base * 2 ^ j), f (N - 1)⟩) := by
  refine ⟨⟨rfl, rfl, rfl, rfl, rfl, ?_⟩, ?_, ?_⟩
  · intro code h1 h2
    simp only [isRetryable, Bool.or_eq_false_iff]
    exact ⟨by simpa using h1, by simpa using h2⟩
  · intro α f N base e hN hf0 hnr
    cases N with
    | zero => exact absurd hN (lt_irrefl 0)
    | succ n =>
      show retryGo f base 0 (n + 1) = _
      rw [show retryGo f base 0 (n + 1) =
          (match f 0 with
           | .ok a => (⟨1, [], .ok a⟩ : RetryTrace α)
           | .error e =>
             if n = 0 ∨ isRetryable e = false then ⟨1, [], .error e⟩
             else
               let r := retryGo f base (0 + 1) n
               ⟨r.attemptsMade + 1, base * 2 ^ 0 :: r.delays, r.outcome⟩) from rfl]
      rw [hf0]
      show (if n = 0 ∨ isRetryable e = false then (⟨1, [], .error e⟩ : RetryTrace α)
        else
          let r := retryGo f base (0 + 1) n
          ⟨r.attemptsMade + 1, base * 2 ^ 0 :: r.delays, r.outcome⟩) = ⟨1, [], .error e⟩
      rw [if_pos (Or.inr hnr)]
  · intro α f N base hN hf
    have := retryGo_all_fail f base N 0 hN (by simpa using hf)
    simpa [executeWithRetry] using this

/-- A wrapped operation that fails with HTTP 429 on every attempt. -/
def sampleAttempts : Nat → Except FailureKind Nat :=
  fun _ => .error (.httpStatus 429)

/-- C4 (witness): three rate-limited attempts at the default bound of 3
with base delay 1000 sleep 1000 then 2000 and surface the last 429. -/
theorem claim_C4_witness :
    executeWithRetry sampleAttempts 3 1000 =
      ⟨3, [1000, 2000], .error (.httpStatus 429)⟩ := by
  have h := claim_C4.2.2 Nat sampleAttempts 3 1000 (by decide)
    (fun j _ => ⟨.httpStatus 429, rfl, rfl⟩)
  exact h.trans rfl

/-! ## Claims about the context-file loader -/

theorem loadContextFilesGo_invariant (fs : String → Option FsEntry)
    (resolve : String → String) (detectLang : String → String) :
    ∀ (paths : List String) (total : Nat), total ≤ maxTotalSize →
      (∀ f ∈ loadContextFilesGo fs resolve detectLang paths total,
          ∃ e, fs (resolve f.path) = some e ∧ e.size ≤ maxFileSize ∧
            e.readResult = some f.content) ∧
      ((loadContextFilesGo fs resolve detectLang paths total).map
          (fsSizeOf fs resolve)).sum + total ≤ maxTotalSize ∧
      (∀ p, (fs (resolve p) = none ∨
             ∃ e, fs (resolve p) = some e ∧
               (maxFileSize < e.size ∨ e.readResult = none)) →
          p ∉ (loadContextFilesGo fs resolve detectLang paths total).map (·.path)) := by
  intro paths
  induction paths with
  | nil =>
    intro total htot
    refine ⟨?_, ?_, ?_⟩
    · intro f hf
      simp [loadContextFilesGo] at hf
    · simpa [loadContextFilesGo] using htot
    · intro p _
      simp [loadContextFilesGo]
  | cons p ps ih =>
    intro total htot
    cases hfs : fs (resolve p) with
    | none =>
      have hgo : loadContextFilesGo fs resolve detectLang (p :: ps) total =
          loadContextFilesGo fs resolve detectLang ps total := by
        simp [loadContextFilesGo, hfs]
      rw [hgo]
      exact ih total htot
    | some entry =>
      by_cases hsize : entry.size > maxFileSize
      · have hgo : loadContextFilesGo fs resolve detectLang (p :: ps) total =
            loadContextFilesGo fs resolve detectLang ps total := by
          simp [loadContextFilesGo, hfs, hsize]
        rw [hgo]
        exact ih total htot
      · by_cases htot2 : total + entry.size > maxTotalSize
        · have hgo : loadContextFilesGo fs resolve detectLang (p :: ps) total = [] := by
            simp [loadContextFilesGo, hfs, hsize, htot2]
          rw [hgo]
          refine ⟨by intro f hf; simp at hf, by simpa using htot, by intro q _; simp⟩
        · cases hread : entry.readResult with
          | none =>
            have hgo : loadContextFilesGo fs resolve detectLang (p :: ps) total =
                loadContextFilesGo fs resolve detectLang ps total := by
              simp [loadContextFilesGo, hfs, hsize, htot2, hread]
            rw [hgo]
            exact ih total htot
          | some content =>
            have hgo : loadContextFilesGo fs resolve detectLang (p :: ps) total =
                ⟨p, content, detectLang (resolve p)⟩ ::
                  loadContextFilesGo fs resolve detectLang ps (total + entry.size) := by
              simp [loadContextFilesGo, hfs, hsize, htot2, hread]
            rw [hgo]
            have hts : total + entry.size ≤ maxTotalSize := by omega
            obtain ⟨ih1, ih2, ih3⟩ := ih (total + entry.size) hts
            refine ⟨?_, ?_, ?_⟩
            · intro f hf
              rcases List.mem_cons.mp hf with rfl | hf
              · exact ⟨entry, hfs, by omega, by rw [hread]⟩
              · exact ih1 f hf
            · simp only [List.map_cons, List.sum_cons]
              have hsz : fsSizeOf fs resolve ⟨p, content, detectLang (resolve p)⟩ =
                  entry.size := by
                simp [fsSizeOf, hfs]
              rw [hsz]
              omega
            · intro q hq
              simp only [List.map_cons, List.mem_cons, not_or]
              refine ⟨?_, ih3 q hq⟩
              intro hqp
              rw [hqp] at hq
              rcases hq with hnone | ⟨e, he, hbad⟩
              · rw [hfs] at hnone
                exact Option.noConfusion hnone
              · rw [hfs] at he
                have hee : entry = e := Option.some.inj he
                rcases hbad with hlt | hrn
                · rw [← hee] at hlt
                  omega
                · rw [← hee, hread] at hrn
                  exact Option.noConfusion hrn

/-- C10: every file included by `PromptGenerator.loadContextFiles` comes
from a filesystem entry of size at most 100000 bytes whose read succeeded
with exactly the included content; the cumulative size of the included
files never exceeds 500000 bytes; and a path that is missing, too large,
or unreadable is never included — the loader skips it (the function is
total: every failure branch is a `continue`/`break`, never an error). -/
theorem claim_C10 (fs : String → Option FsEntry) (resolve : String → String)
    (detectLang : String → String) (paths : List String) :
    (∀ f ∈ loadContextFiles fs resolve detectLang paths,
        ∃ e, fs (resolve f.path) = some e ∧ e.size ≤ maxFileSize ∧
          e.readResult = some f.content) ∧
    ((loadContextFiles fs resolve detectLang paths).map (fsSizeOf fs resolve)).sum
        ≤ maxTotalSize ∧
    (∀ p, (fs (resolve p) = none ∨
           ∃ e, fs (resolve p) = some e ∧
             (maxFileSize < e.size ∨ e.readResult = none)) →
        p ∉ (loadContextFiles fs resolve detectLang paths).map (·.path)) := by
  have h := loadContextFilesGo_invariant fs resolve detectLang paths 0 (Nat.zero_le _)
  exact ⟨h.1, by simpa using h.2.1, h.2.2⟩

/-- C10 (witness): with the concrete sample filesystem, the oversized
file `big.bin` (200000 bytes) is not included. -/
theorem claim_C10_witness :
    "big.bin" ∉ (loadContextFiles sampleFs id (fun _ => "plaintext")
      ["a.txt", "big.bin"]).map (·.path) :=
  (claim_C10 sampleFs id (fun _ => "plaintext") ["a.txt", "big.bin"]).2.2 "big.bin"
    (Or.inr ⟨⟨200000, some "x"⟩, rfl, Or.inl (by decide)⟩)

end AntigravityJules
